import Mathlib

/-!
Verification of the QMC helium Variational Monte Carlo simulation
(qmcSimulation.py and the core loops of main.py).

The Python code is shallowly embedded over the real numbers. Randomness is
made explicit: an entropy source is a function from draw indices to real
numbers, where the value at an index plays the role of the unit draw in
the interval from 0 to 1 produced by the underlying generator; the numpy
call uniform(low, high) is realized as the affine image low + (high-low)*x
of a unit draw x. Unbounded while-loops (rejection sampling, calibration)
take a fuel argument and return none when the fuel is exhausted, which
models non-termination of the Python loop.
-/

namespace QmcSim

noncomputable section

/-- A position 3-vector, the numpy arrays of length 3 used by the simulation. -/
structure Vec3 where
  x : ℝ
  y : ℝ
  z : ℝ

/-- Function disp of qmcSimulation.py: magnitude of a position vector. -/
def disp (r : Vec3) : ℝ := Real.sqrt (r.x ^ 2 + r.y ^ 2 + r.z ^ 2)

/-- Function get_dist of qmcSimulation.py: distance between two 3-vectors. -/
def get_dist (r1 r2 : Vec3) : ℝ :=
  Real.sqrt ((r2.x - r1.x) ^ 2 + (r2.y - r1.y) ^ 2 + (r2.z - r1.z) ^ 2)

/-- Function move_accept of qmcSimulation.py: the Metropolis acceptance ratio
exp(2*charge*(r1 + r2 - t1 - t2)). -/
def move_accept (r1 r2 t1 t2 charge : ℝ) : ℝ :=
  Real.exp (2 * charge * (r1 + r2 - t1 - t2))

/-- Class Electron: a position vector together with its cached norm field. -/
structure Electron where
  r : Vec3
  norm : ℝ

/-- Class Pair: two electrons bound to one helium atom. -/
structure Pair where
  e1 : Electron
  e2 : Electron

/-- Method Pair.energy: the local energy
-q^2 + (q-2)/r1 + (q-2)/r2 + 1/r12, with r1 and r2 the cached norms and
r12 the inter-electron distance. -/
def Pair.energy (p : Pair) (charge : ℝ) : ℝ :=
  -charge ^ 2 + (charge - 2) / p.e1.norm + (charge - 2) / p.e2.norm
    + 1 / get_dist p.e1.r p.e2.r

/-- The numpy call uniform(low, high) realized from a unit draw x:
low + (high - low) * x. -/
def unif (low high x : ℝ) : ℝ := low + (high - low) * x

/-- Three consecutive uniform draws, the numpy call uniform(low, high, 3),
consuming the unit draws at indices k, k+1, k+2 of the entropy source. -/
def unif3 (low high : ℝ) (s : ℕ → ℝ) (k : ℕ) : Vec3 :=
  ⟨unif low high (s k), unif low high (s (k + 1)), unif low high (s (k + 2))⟩

/-- Method Qmc.random_vector: rejection sampling from the cube, accepting a
draw exactly when its norm is at most the radius. The fuel argument bounds
the number of retries of the while loop; none models fuel exhaustion.
On success the sampled vector, its norm and the next draw index are returned. -/
def random_vector (radius : ℝ) (s : ℕ → ℝ) : ℕ → ℕ → Option ((Vec3 × ℝ) × ℕ)
  | 0, _ => none
  | fuel + 1, k =>
      let r := unif3 (-radius) radius s k
      let norm := Real.sqrt (r.x ^ 2 + r.y ^ 2 + r.z ^ 2)
      if norm ≤ radius then some ((r, norm), k + 3)
      else random_vector radius s fuel (k + 3)

/-- Method Qmc.generate_pairs: builds the list of electron pairs in loop
order, drawing two random vectors per pair. -/
def generate_pairs (radius : ℝ) (s : ℕ → ℝ) (fuel : ℕ) :
    ℕ → ℕ → Option (List Pair × ℕ)
  | 0, k => some ([], k)
  | n + 1, k => do
      let ((r1, n1), k1) ← random_vector radius s fuel k
      let ((r2, n2), k2) ← random_vector radius s fuel k1
      let (rest, k3) ← generate_pairs radius s fuel n k2
      some (⟨⟨r1, n1⟩, ⟨r2, n2⟩⟩ :: rest, k3)

/-- Class Qmc: the simulation state. num_pairs is kept as an integer since
the Python constructor accepts any int; the coordinate buffers and the
display handle are presentation-only and omitted. -/
structure Qmc where
  num_pairs : ℤ
  pairs : List Pair
  radius : ℝ
  step_size : ℝ
  charge : ℝ

/-- Method Qmc.__init__: stores the parameters unvalidated, allocates the
coordinate buffers with np.zeros(2*num_pairs) at lines 77-79, and then
populates the pair list through generate_pairs. The buffer contents are
presentation-only and omitted, but the allocation itself raises ValueError
for a negative length, so a negative num_pairs fails before any draw:
this error path is the initial none guard. For a nonnegative count the
loop range(num_pairs) runs num_pairs.toNat times (empty for zero). -/
def mkQmc (num_pairs : ℤ) (radius step_size charge : ℝ) (s : ℕ → ℝ)
    (fuel k : ℕ) : Option (Qmc × ℕ) :=
  if num_pairs < 0 then none
  else
    (generate_pairs radius s fuel num_pairs.toNat k).map fun pk =>
      (⟨num_pairs, pk.1, radius, step_size, charge⟩, pk.2)

/-- The loop body of Qmc.reset, faithful to the assignment targets in the
source: line 112 assigns pair.e1.r and pair.e1.norm from the first draw,
line 113 assigns pair.e1.r and pair.e2.norm from the second draw. Thus e1
ends with the second position but the first norm, and e2 keeps its old
position with the second norm. -/
def reset_pairs (radius : ℝ) (s : ℕ → ℝ) (fuel : ℕ) :
    List Pair → ℕ → Option (List Pair × ℕ)
  | [], k => some ([], k)
  | p :: ps, k => do
      let ((_r1, n1), k1) ← random_vector radius s fuel k
      let ((r2, n2), k2) ← random_vector radius s fuel k1
      let (rest, k3) ← reset_pairs radius s fuel ps k2
      some (⟨⟨r2, n1⟩, ⟨p.e2.r, n2⟩⟩ :: rest, k3)

/-- Method Qmc.reset: regenerates the electrons of every pair in order. -/
def reset (st : Qmc) (s : ℕ → ℝ) (fuel k : ℕ) : Option (Qmc × ℕ) :=
  (reset_pairs st.radius s fuel st.pairs k).map fun pk =>
    ({ st with pairs := pk.1 }, pk.2)

/-- Method Qmc.set_charge. -/
def set_charge (st : Qmc) (c : ℝ) : Qmc := { st with charge := c }

/-- Method Qmc.avg_energy: accumulates pair energies with a fold starting at
zero and divides by the stored num_pairs field. -/
def avg_energy (st : Qmc) : ℝ :=
  (st.pairs.foldl (fun acc p => acc + p.energy st.charge) 0) / (st.num_pairs : ℝ)

/-- The per-pair body of Qmc.update: two trial positions obtained by adding
a uniform displacement per coordinate, trial norms by the inlined square
root, then the Metropolis test of move_accept against the single unit draw
at index k+6. Exactly seven draws are consumed. -/
def update_pair (q step : ℝ) (s : ℕ → ℝ) (k : ℕ) (p : Pair) : Pair × ℕ :=
  let t1 : Vec3 := ⟨p.e1.r.x + unif (-step) step (s k),
                    p.e1.r.y + unif (-step) step (s (k + 1)),
                    p.e1.r.z + unif (-step) step (s (k + 2))⟩
  let t1n := Real.sqrt (t1.x ^ 2 + t1.y ^ 2 + t1.z ^ 2)
  let t2 : Vec3 := ⟨p.e2.r.x + unif (-step) step (s (k + 3)),
                    p.e2.r.y + unif (-step) step (s (k + 4)),
                    p.e2.r.z + unif (-step) step (s (k + 5))⟩
  let t2n := Real.sqrt (t2.x ^ 2 + t2.y ^ 2 + t2.z ^ 2)
  if move_accept p.e1.norm p.e2.norm t1n t2n q > s (k + 6)
  then (⟨⟨t1, t1n⟩, ⟨t2, t2n⟩⟩, k + 7)
  else (p, k + 7)

/-- The loop of Qmc.update over the pair list, threading the draw index. -/
def update_pairs (q step : ℝ) (s : ℕ → ℝ) : List Pair → ℕ → List Pair × ℕ
  | [], k => ([], k)
  | p :: ps, k =>
      let pk := update_pair q step s k p
      let rest := update_pairs q step s ps pk.2
      (pk.1 :: rest.1, rest.2)

/-- Method Qmc.update: one Metropolis-Hastings sweep over all pairs. -/
def update (st : Qmc) (s : ℕ → ℝ) (k : ℕ) : Qmc × ℕ :=
  let pk := update_pairs st.charge st.step_size s st.pairs k
  ({ st with pairs := pk.1 }, pk.2)

/-- Modelled from the spec sentence on the per-pair update step: propose a
trial position for each electron by adding a uniform displacement in the
step-size interval per coordinate, compare a single unit draw against the
acceptance ratio exp(2q(r1+r2-t1-t2)), replace position and norm of both
electrons on acceptance and keep the pair unchanged otherwise. Used to
compare the source update against the specified behaviour. -/
def spec_pair_step (stepSize q : ℝ) (s : ℕ → ℝ) (k : ℕ) (p : Pair) : Pair :=
  let t1 : Vec3 := ⟨p.e1.r.x + unif (-stepSize) stepSize (s k),
                    p.e1.r.y + unif (-stepSize) stepSize (s (k + 1)),
                    p.e1.r.z + unif (-stepSize) stepSize (s (k + 2))⟩
  let t2 : Vec3 := ⟨p.e2.r.x + unif (-stepSize) stepSize (s (k + 3)),
                    p.e2.r.y + unif (-stepSize) stepSize (s (k + 4)),
                    p.e2.r.z + unif (-stepSize) stepSize (s (k + 5))⟩
  let A := Real.exp (2 * q * (p.e1.norm + p.e2.norm - disp t1 - disp t2))
  if A > s (k + 6) then ⟨⟨t1, disp t1⟩, ⟨t2, disp t2⟩⟩ else p

/-- The inner window loop of calibrate_system in main.py: n iterations of
sampling avg_energy into the buffer followed by an update. Returns the
window samples in order, the final state and the next draw index. -/
def calib_window (s : ℕ → ℝ) : ℕ → Qmc → ℕ → List ℝ × Qmc × ℕ
  | 0, st, k => ([], st, k)
  | i + 1, st, k =>
      let c := avg_energy st
      let stk := update st s k
      let rest := calib_window s i stk.1 stk.2
      (c :: rest.1, rest.2.1, rest.2.2)

/-- The while loop of calibrate_system: collect a window of 25 samples,
average it, continue while the window mean strictly improves on the
previous best, otherwise stop. Fuel bounds the number of windows; the
accumulator is the test_set list of all samples seen. -/
def calibrate_loop (s : ℕ → ℝ) : ℕ → Qmc → ℕ → ℝ → List ℝ →
    Option (List ℝ × Qmc × ℕ)
  | 0, _, _, _, _ => none
  | fuel + 1, st, k, prev, acc =>
      let w := calib_window s 25 st k
      let cur := w.1.sum / 25
      if cur < prev then calibrate_loop s fuel w.2.1 w.2.2 cur (acc ++ w.1)
      else some (acc ++ w.1, w.2.1, w.2.2)

/-- Function calibrate_system of main.py: the calibration loop started with
the sentinel previous average 100.0 and an empty test_set. -/
def calibrate_system (st : Qmc) (s : ℕ → ℝ) (k fuel : ℕ) :
    Option (List ℝ × Qmc × ℕ) :=
  calibrate_loop s fuel st k 100 []

/-- Division with the zero divisor made observable: none models the numpy
floating division by zero, whose non-finite result has no real counterpart. -/
def fdiv (x y : ℝ) : Option ℝ := if y = 0 then none else some (x / y)

/-- The vertex computation of print_results in main.py: the source computes
x_min = -b/(2a) unconditionally, with no degeneracy check on a; the
division is routed through fdiv so the divide-by-zero event is observable. -/
def print_results_min (a b c : ℝ) : Option (ℝ × ℝ) :=
  match fdiv (-b) (2 * a) with
  | none => none
  | some x => some (x, a * x ^ 2 + b * x + c)

/-- Pair.energy with each division routed through fdiv, making a zero
divisor (zero cached norm or zero inter-electron distance) observable
instead of silently yielding the Lean convention value. -/
def Pair.energyChecked (p : Pair) (charge : ℝ) : Option ℝ := do
  let a ← fdiv (charge - 2) p.e1.norm
  let b ← fdiv (charge - 2) p.e2.norm
  let c ← fdiv 1 (get_dist p.e1.r p.e2.r)
  some (-charge ^ 2 + a + b + c)

/-- The checked energies of all pairs in order, none if any pair divides by
zero. -/
def energies_checked (q : ℝ) : List Pair → Option (List ℝ)
  | [] => some []
  | p :: ps => do
      let e ← p.energyChecked q
      let rest ← energies_checked q ps
      some (e :: rest)

/-- Qmc.avg_energy with every division routed through fdiv. -/
def avg_energyChecked (st : Qmc) : Option ℝ := do
  let es ← energies_checked st.charge st.pairs
  fdiv es.sum (st.num_pairs : ℝ)

/-- Entropy source all of whose unit draws are one half: every uniform draw
lands at the midpoint of its interval. -/
def streamHalf : ℕ → ℝ := fun _ => 1 / 2

/-- Entropy source all of whose unit draws are one. -/
def streamOne : ℕ → ℝ := fun _ => 1

/-- A pair with the first electron on the unit sphere and the second at the
origin, both norm caches in sync. -/
def pBall : Pair := ⟨⟨⟨1, 0, 0⟩, 1⟩, ⟨⟨0, 0, 0⟩, 0⟩⟩

/-- A one-pair ensemble of radius 1, step size 1 and charge 0 whose
electrons lie inside the ball. -/
def stBall : Qmc := ⟨1, [pBall], 1, 1, 0⟩

/-- Entropy source sending the first displacement coordinate to the top of
its range, the acceptance draw to zero and everything else to the midpoint. -/
def streamBall : ℕ → ℝ := fun k => if k = 0 then 1 else if k = 6 then 0 else 1 / 2

/-- A one-pair ensemble at charge 0 and step size 0 whose electrons sit
1/200 apart on the x-axis, giving a large positive local energy. -/
def stCal : Qmc :=
  ⟨1, [⟨⟨⟨1, 0, 0⟩, 1⟩, ⟨⟨199 / 200, 0, 0⟩, 199 / 200⟩⟩], 4, 0, 0⟩

/-- A one-pair ensemble with orthogonal unit-sphere electrons, all divisors
of the energy nonzero. -/
def stOrtho : Qmc := ⟨1, [⟨⟨⟨1, 0, 0⟩, 1⟩, ⟨⟨0, 1, 0⟩, 1⟩⟩], 4, 1 / 2, 5 / 4⟩

/-- The input pair for the reset counterexample: both norm caches in sync. -/
def pReset : Pair := ⟨⟨⟨1, 0, 0⟩, 1⟩, ⟨⟨0, 1, 0⟩, 1⟩⟩

/-- A one-pair ensemble of radius 1 for the reset counterexample. -/
def stReset : Qmc := ⟨1, [pReset], 1, 1 / 2, 5 / 4⟩

/-- Entropy source making reset draw first the vector (1,0,0) of norm 1 and
then the vector (1/2,0,0) of norm 1/2, both accepted on the first try. -/
def streamReset : ℕ → ℝ :=
  fun k => if k = 0 then 1 else if k = 3 then 3 / 4 else 1 / 2

lemma random_vector_sound (radius : ℝ) (s : ℕ → ℝ) :
    ∀ (fuel k : ℕ) (r : Vec3) (n : ℝ) (k' : ℕ),
      random_vector radius s fuel k = some ((r, n), k') →
      n = disp r ∧ n ≤ radius ∧ ∃ j, k ≤ j ∧ r = unif3 (-radius) radius s j := by
  intro fuel
  induction fuel with
  | zero => intro k r n k' h; simp [random_vector] at h
  | succ m ih =>
      intro k r n k' h
      rw [random_vector] at h
      split_ifs at h with hc
      · simp only [Option.some.injEq, Prod.mk.injEq] at h
        obtain ⟨⟨hr, hn⟩, -⟩ := h
        subst hr
        subst hn
        exact ⟨rfl, hc, k, le_rfl, rfl⟩
      · obtain ⟨h1, h2, j, hj, hr⟩ := ih (k + 3) r n k' h
        exact ⟨h1, h2, j, le_trans (Nat.le_add_right k 3) hj, hr⟩

lemma random_vector_neg_radius (radius : ℝ) (s : ℕ → ℝ) (h : radius < 0) :
    ∀ (fuel k : ℕ), random_vector radius s fuel k = none := by
  intro fuel
  induction fuel with
  | zero => intro k; rfl
  | succ m ih =>
      intro k
      rw [random_vector]
      rw [if_neg (not_le.mpr (lt_of_lt_of_le h (Real.sqrt_nonneg _)))]
      exact ih (k + 3)

lemma random_vector_zero_radius (s : ℕ → ℝ) (fuel k : ℕ) :
    random_vector 0 s (fuel + 1) k = some ((⟨0, 0, 0⟩, 0), k + 3) := by
  rw [random_vector]
  simp [unif3, unif]

lemma generate_pairs_zero_radius (s : ℕ → ℝ) (fuel : ℕ) :
    ∀ (n k : ℕ), generate_pairs 0 s (fuel + 1) n k =
      some (List.replicate n ⟨⟨⟨0, 0, 0⟩, 0⟩, ⟨⟨0, 0, 0⟩, 0⟩⟩, k + 6 * n) := by
  intro n
  induction n with
  | zero => intro k; simp [generate_pairs]
  | succ m ih =>
      intro k
      simp [generate_pairs, random_vector_zero_radius, ih, List.replicate_succ]
      omega

/-- C9: the acceptance ratio is inverted by swapping the current and trial
distances: the product of move_accept on (r1,r2,t1,t2) and on (t1,t2,r1,r2)
is one for all real inputs and any charge. -/
theorem C9_acceptance_inverse (r1 r2 t1 t2 q : ℝ) :
    move_accept r1 r2 t1 t2 q * move_accept t1 t2 r1 r2 q = 1 := by
  unfold move_accept
  rw [← Real.exp_add]
  have h : 2 * q * (r1 + r2 - t1 - t2) + 2 * q * (t1 + t2 - r1 - r2) = 0 := by ring
  rw [h]
  exact Real.exp_zero

/-- C5: whenever random_vector returns a sample, the returned norm equals
the Euclidean norm of the returned vector, the norm is at most the radius,
and the vector is the image of cube draws from the entropy source. -/
theorem C5_random_vector_ball (radius : ℝ) (s : ℕ → ℝ) (fuel k : ℕ) (r : Vec3)
    (n : ℝ) (k' : ℕ) (h : random_vector radius s fuel k = some ((r, n), k')) :
    n = disp r ∧ n ≤ radius ∧ ∃ j, k ≤ j ∧ r = unif3 (-radius) radius s j :=
  random_vector_sound radius s fuel k r n k' h

lemma random_vector_one_halfstream (k : ℕ) :
    random_vector 1 streamHalf 1 k = some ((⟨0, 0, 0⟩, 0), k + 3) := by
  rw [random_vector]
  norm_num [unif3, unif, streamHalf]

/-- C5 witness: at radius 1 with the midpoint entropy source the sampler
accepts the origin on the first try, and the returned pair satisfies the
ball and norm-cache properties. -/
theorem C5_random_vector_ball_witness :
    random_vector 1 streamHalf 1 0 = some ((⟨0, 0, 0⟩, 0), 3) ∧
    ((0 : ℝ) = disp ⟨0, 0, 0⟩ ∧ (0 : ℝ) ≤ 1 ∧
      ∃ j, 0 ≤ j ∧ (⟨0, 0, 0⟩ : Vec3) = unif3 (-1) 1 streamHalf j) :=
  ⟨random_vector_one_halfstream 0,
    C5_random_vector_ball 1 streamHalf 1 0 ⟨0, 0, 0⟩ 0 3
      (random_vector_one_halfstream 0)⟩

/-- C7 counterexample: at a degenerate fit with leading coefficient zero
the reporting stage does not surface any error condition before dividing;
it performs the division -b/(2a) with a zero divisor. -/
theorem C7_counterexample : print_results_min 0 1 2 = none := by
  simp [print_results_min, fdiv]

/-- C7 amended: for every degenerate quadratic fit (leading coefficient
zero) print_results unconditionally divides by zero when computing the
vertex; no configuration-error check exists. -/
theorem C7_divides_by_zero (b c : ℝ) : print_results_min 0 b c = none := by
  simp [print_results_min, fdiv]

/-- C4 counterexample: construction with the non-positive pair count 0 and
valid radius 1 succeeds (returns an ensemble) instead of failing fast. -/
theorem C4_counterexample :
    mkQmc 0 1 (1 / 2) (5 / 4) streamHalf 1 0 =
      some (⟨0, [], 1, 1 / 2, 5 / 4⟩, 0) := by
  simp [mkQmc, generate_pairs]

/-- C4 amended: the constructor does not validate its parameters, so
failure is not exact on the stated invalid inputs. With pair count zero it
succeeds and produces an ensemble with no pairs; with a negative pair
count it does fail before any draw, but only incidentally, through the
negative-length coordinate-buffer allocation; with radius zero it
succeeds with every electron at the origin; with a negative radius it does
not fail fast, the rejection-sampling loop simply never accepts a draw for
any amount of fuel. -/
theorem C4_no_validation :
    (∀ (r step c : ℝ) (s : ℕ → ℝ) (fuel k : ℕ),
        mkQmc 0 r step c s fuel k = some (⟨0, [], r, step, c⟩, k)) ∧
    (∀ (n : ℤ) (r step c : ℝ) (s : ℕ → ℝ) (fuel k : ℕ), n < 0 →
        mkQmc n r step c s fuel k = none) ∧
    (∀ (n : ℕ) (step c : ℝ) (s : ℕ → ℝ) (fuel k : ℕ),
        mkQmc (n : ℤ) 0 step c s (fuel + 1) k =
          some (⟨(n : ℤ), List.replicate n ⟨⟨⟨0, 0, 0⟩, 0⟩, ⟨⟨0, 0, 0⟩, 0⟩⟩,
            0, step, c⟩, k + 6 * n)) ∧
    (∀ (radius : ℝ) (s : ℕ → ℝ) (fuel k : ℕ), radius < 0 →
        random_vector radius s fuel k = none) := by
  refine ⟨?_, ?_, ?_, ?_⟩
  · intro r step c s fuel k
    simp [mkQmc, generate_pairs]
  · intro n r step c s fuel k hn
    simp [mkQmc, hn]
  · intro n step c s fuel k
    unfold mkQmc
    rw [if_neg (not_lt.mpr (Int.natCast_nonneg n))]
    rw [Int.toNat_natCast, generate_pairs_zero_radius]
    simp
  · intro radius s fuel k h
    exact random_vector_neg_radius radius s h fuel k

/-- C4 witness: concrete instances of the amended statement, with the pair
count zero, a negative pair count, a zero radius and a negative radius. -/
theorem C4_no_validation_witness :
    mkQmc 0 2 1 1 streamHalf 0 0 = some (⟨0, [], 2, 1, 1⟩, 0) ∧
    mkQmc (-2) 1 (1 / 2) (5 / 4) streamHalf 0 0 = none ∧
    mkQmc 1 0 (1 / 2) (5 / 4) streamHalf 1 0 =
      some (⟨1, [⟨⟨⟨0, 0, 0⟩, 0⟩, ⟨⟨0, 0, 0⟩, 0⟩⟩], 0, 1 / 2, 5 / 4⟩, 6) ∧
    random_vector (-1) streamHalf 1 0 = none := by
  refine ⟨C4_no_validation.1 2 1 1 streamHalf 0 0,
    C4_no_validation.2.1 (-2) 1 (1 / 2) (5 / 4) streamHalf 0 0 (by norm_num),
    ?_, C4_no_validation.2.2.2 (-1) streamHalf 1 0 (by norm_num)⟩
  have h := C4_no_validation.2.2.1 1 (1 / 2) (5 / 4) streamHalf 0 0
  simpa using h

lemma sqrt_four : Real.sqrt 4 = 2 := by
  rw [show (4 : ℝ) = 2 ^ 2 by norm_num]
  exact Real.sqrt_sq (by norm_num)

lemma sqrt_40000 : Real.sqrt 40000 = 200 := by
  rw [show (40000 : ℝ) = 200 ^ 2 by norm_num]
  exact Real.sqrt_sq (by norm_num)

lemma rvReset0 : random_vector 1 streamReset 1 0 = some ((⟨1, 0, 0⟩, 1), 3) := by
  rw [random_vector]
  norm_num [unif3, unif, streamReset, Real.sqrt_one]

lemma rvReset3 :
    random_vector 1 streamReset 1 3 = some ((⟨1 / 2, 0, 0⟩, 1 / 2), 6) := by
  rw [random_vector]
  norm_num [unif3, unif, streamReset, sqrt_four]

/-- C1: on the failing input, reset leaves the first electron with the norm
of the first draw but the position of the second draw, and the second
electron with its old position but the norm of the second draw; both norm
caches end desynchronized from the positions, against the stated invariant. -/
theorem C1_reset_desyncs_norm :
    reset stReset streamReset 1 0 =
      some ({ stReset with pairs := [⟨⟨⟨1 / 2, 0, 0⟩, 1⟩, ⟨⟨0, 1, 0⟩, 1 / 2⟩⟩] }, 6) ∧
    disp ⟨1 / 2, 0, 0⟩ = 1 / 2 ∧ ((1 : ℝ) ≠ 1 / 2) ∧
    disp ⟨0, 1, 0⟩ = 1 ∧ ((1 / 2 : ℝ) ≠ 1) := by
  refine ⟨?_, ?_, by norm_num, ?_, by norm_num⟩
  · simp [reset, reset_pairs, stReset, pReset, rvReset0, rvReset3]
  · rw [disp]; norm_num [sqrt_four]
  · rw [disp]; norm_num [Real.sqrt_one]

lemma update_pair_eq_spec (q step : ℝ) (s : ℕ → ℝ) (k : ℕ) (p : Pair) :
    (update_pair q step s k p).1 = spec_pair_step step q s k p := by
  unfold update_pair spec_pair_step
  dsimp only [move_accept, disp]
  split <;> rfl

lemma update_pair_snd (q step : ℝ) (s : ℕ → ℝ) (k : ℕ) (p : Pair) :
    (update_pair q step s k p).2 = k + 7 := by
  unfold update_pair
  dsimp only
  split <;> rfl

lemma update_pairs_get (q step : ℝ) (s : ℕ → ℝ) :
    ∀ (ps : List Pair) (k j : ℕ) (p : Pair), ps[j]? = some p →
      (update_pairs q step s ps k).1[j]? =
        some ((update_pair q step s (k + 7 * j) p).1) := by
  intro ps
  induction ps with
  | nil => intro k j p h; simp at h
  | cons p0 rest ih =>
      intro k j p h
      cases j with
      | zero =>
          simp only [List.getElem?_cons_zero, Option.some.injEq] at h
          subst h
          rw [update_pairs]
          simp
      | succ m =>
          simp only [List.getElem?_cons_succ] at h
          rw [update_pairs]
          simp only [List.getElem?_cons_succ]
          rw [update_pair_snd]
          rw [show k + 7 * (m + 1) = (k + 7) + 7 * m by ring]
          exact ih (k + 7) m p h

/-- C2: the pair at index j after one update sweep is exactly the
spec-described Metropolis step applied at draw index k+7j: trial positions
add one uniform displacement per coordinate, a single unit draw is compared
against the exponential acceptance ratio, acceptance replaces both
positions and norms, rejection leaves the pair unchanged; moreover any
within-range unit draw yields a displacement inside the step-size interval. -/
theorem C2_update_matches_spec (st : Qmc) (s : ℕ → ℝ) (k j : ℕ) (p : Pair)
    (hp : st.pairs[j]? = some p) :
    (update st s k).1.pairs[j]? =
      some (spec_pair_step st.step_size st.charge s (k + 7 * j) p) ∧
    (∀ x : ℝ, 0 ≤ x → x < 1 → 0 ≤ st.step_size →
      -st.step_size ≤ unif (-st.step_size) st.step_size x ∧
      unif (-st.step_size) st.step_size x ≤ st.step_size) := by
  constructor
  · rw [update]
    dsimp only
    rw [update_pairs_get st.charge st.step_size s st.pairs k j p hp,
      update_pair_eq_spec]
  · intro x h0 h1 hs
    unfold unif
    constructor <;> nlinarith

/-- C2 witness: the per-pair update characterization instantiated on a
concrete one-pair ensemble at index zero. -/
theorem C2_update_matches_spec_witness :
    stBall.pairs[0]? = some pBall ∧
    ((update stBall streamBall 0).1.pairs[0]? =
        some (spec_pair_step stBall.step_size stBall.charge streamBall
          (0 + 7 * 0) pBall) ∧
      (∀ x : ℝ, 0 ≤ x → x < 1 → 0 ≤ stBall.step_size →
        -stBall.step_size ≤ unif (-stBall.step_size) stBall.step_size x ∧
        unif (-stBall.step_size) stBall.step_size x ≤ stBall.step_size)) :=
  ⟨by simp [stBall],
    C2_update_matches_spec stBall streamBall 0 0 pBall (by simp [stBall])⟩

lemma foldl_energy (q : ℝ) : ∀ (ps : List Pair) (a : ℝ),
    ps.foldl (fun acc p => acc + p.energy q) a
      = a + (ps.map fun p => p.energy q).sum := by
  intro ps
  induction ps with
  | nil => intro a; simp
  | cons p rest ih => intro a; simp [ih]; ring

/-- C3: on a correctly constructed ensemble (stored pair count equal to the
length of the pair list, at least one pair), avg_energy is the arithmetic
mean over all pairs of the local energy
-q^2 + (q-2)/r1 + (q-2)/r2 + 1/r12 at the current charge, a pure function
of the pair states and the charge. -/
theorem C3_avg_energy_mean (st : Qmc) (h1 : st.num_pairs = (st.pairs.length : ℤ))
    (_h2 : st.pairs ≠ []) :
    avg_energy st = (st.pairs.map fun p =>
      -st.charge ^ 2 + (st.charge - 2) / p.e1.norm + (st.charge - 2) / p.e2.norm
        + 1 / get_dist p.e1.r p.e2.r).sum / (st.pairs.length : ℝ) := by
  rw [avg_energy, foldl_energy, h1]
  simp [Pair.energy]

/-- C3 witness: the mean characterization instantiated on a concrete
one-pair ensemble. -/
theorem C3_avg_energy_mean_witness :
    stOrtho.num_pairs = (stOrtho.pairs.length : ℤ) ∧ stOrtho.pairs ≠ [] ∧
    avg_energy stOrtho = (stOrtho.pairs.map fun p =>
      -stOrtho.charge ^ 2 + (stOrtho.charge - 2) / p.e1.norm
        + (stOrtho.charge - 2) / p.e2.norm
        + 1 / get_dist p.e1.r p.e2.r).sum / (stOrtho.pairs.length : ℝ) :=
  ⟨by simp [stOrtho], by simp [stOrtho],
    C3_avg_energy_mean stOrtho (by simp [stOrtho]) (by simp [stOrtho])⟩

lemma update_stCal (k : ℕ) : update stCal streamOne k = (stCal, k + 7) := by
  simp [update, update_pairs, update_pair, stCal, streamOne, move_accept, unif,
    Real.exp_zero]

lemma avg_stCal : avg_energy stCal = 39002 / 199 := by
  simp [avg_energy, Pair.energy, stCal, get_dist]
  norm_num [sqrt_40000]

lemma calib_window_const (st : Qmc) (s : ℕ → ℝ)
    (h : ∀ k, update st s k = (st, k + 7)) :
    ∀ (n k : ℕ), calib_window s n st k =
      (List.replicate n (avg_energy st), st, k + 7 * n) := by
  intro n
  induction n with
  | zero => intro k; simp [calib_window]
  | succ m ih =>
      intro k
      rw [calib_window, h k, ih]
      simp [List.replicate_succ]
      omega

lemma calib_window_len (s : ℕ → ℝ) :
    ∀ (n : ℕ) (st : Qmc) (k : ℕ), (calib_window s n st k).1.length = n := by
  intro n
  induction n with
  | zero => intro st k; rfl
  | succ m ih => intro st k; rw [calib_window]; simp [ih]

lemma stCal_window :
    calib_window streamOne 25 stCal 0 =
      (List.replicate 25 ((39002 : ℝ) / 199), stCal, 175) := by
  rw [calib_window_const stCal streamOne update_stCal 25 0, avg_stCal]

lemma stCal_window_mean : (100 : ℝ) ≤ (calib_window streamOne 25 stCal 0).1.sum / 25 := by
  rw [stCal_window]
  rw [List.sum_replicate]
  norm_num [nsmul_eq_mul]

/-- C6 counterexample: on a concrete ensemble whose first calibration
window has mean 39002/199, above the 100.0 sentinel, the loop stops with
exactly one window of 25 samples collected even though fuel for a second
window remains; it does not proceed to another window. -/
theorem C6_counterexample :
    (calib_window streamOne 25 stCal 0).1 = List.replicate 25 ((39002 : ℝ) / 199) ∧
    (100 : ℝ) < (List.replicate 25 ((39002 : ℝ) / 199)).sum / 25 ∧
    calibrate_system stCal streamOne 0 2 =
      some (List.replicate 25 ((39002 : ℝ) / 199), stCal, 175) := by
  refine ⟨?_, ?_, ?_⟩
  · rw [stCal_window]
  · rw [List.sum_replicate]
    norm_num [nsmul_eq_mul]
  · rw [calibrate_system, calibrate_loop]
    rw [calib_window_const stCal streamOne update_stCal 25 0]
    rw [if_neg (by rw [avg_stCal]; rw [List.sum_replicate]; norm_num [nsmul_eq_mul] :
      ¬(List.replicate 25 (avg_energy stCal)).sum / 25 < 100)]
    simp [avg_stCal]

/-- C6 amended: when the mean of the very first window of 25 samples is at
least the 100.0 sentinel, the calibration loop declares equilibrium
immediately after that window: it returns with exactly the 25 samples of
the first window collected, for any remaining fuel. -/
theorem C6_first_window_stop (st : Qmc) (s : ℕ → ℝ) (k fuel : ℕ)
    (h : 100 ≤ (calib_window s 25 st k).1.sum / 25) :
    calibrate_system st s k (fuel + 1) =
      some ((calib_window s 25 st k).1, (calib_window s 25 st k).2.1,
        (calib_window s 25 st k).2.2) ∧
    (calib_window s 25 st k).1.length = 25 := by
  constructor
  · rw [calibrate_system, calibrate_loop]
    rw [if_neg (not_lt.mpr h)]
    simp
  · exact calib_window_len s 25 st k

/-- C6 witness: the immediate-stop behaviour instantiated on the concrete
high-energy ensemble. -/
theorem C6_first_window_stop_witness :
    (100 : ℝ) ≤ (calib_window streamOne 25 stCal 0).1.sum / 25 ∧
    (calibrate_system stCal streamOne 0 2 =
      some ((calib_window streamOne 25 stCal 0).1,
        (calib_window streamOne 25 stCal 0).2.1,
        (calib_window streamOne 25 stCal 0).2.2) ∧
     (calib_window streamOne 25 stCal 0).1.length = 25) :=
  ⟨stCal_window_mean, C6_first_window_stop stCal streamOne 0 1 stCal_window_mean⟩

lemma rv_one_half (k : ℕ) :
    random_vector 1 streamHalf 1 k = some ((⟨0, 0, 0⟩, 0), k + 3) := by
  rw [random_vector]
  norm_num [unif3, unif, streamHalf]

lemma energyChecked_of_nonzero (p : Pair) (q : ℝ) (h1 : p.e1.norm ≠ 0)
    (h2 : p.e2.norm ≠ 0) (h3 : get_dist p.e1.r p.e2.r ≠ 0) :
    p.energyChecked q = some (p.energy q) := by
  simp [Pair.energyChecked, fdiv, h1, h2, h3, Pair.energy]

lemma energies_checked_of_nonzero (q : ℝ) : ∀ ps : List Pair,
    (∀ p ∈ ps, p.e1.norm ≠ 0 ∧ p.e2.norm ≠ 0 ∧ get_dist p.e1.r p.e2.r ≠ 0) →
    energies_checked q ps = some (ps.map fun p => p.energy q) := by
  intro ps
  induction ps with
  | nil => intro _; rfl
  | cons p rest ih =>
      intro h
      obtain ⟨hp1, hp2, hp3⟩ := h p (List.mem_cons_self p rest)
      rw [energies_checked, energyChecked_of_nonzero p q hp1 hp2 hp3]
      simp [ih fun x hx => h x (List.mem_cons_of_mem p hx)]

/-- C8 counterexample: a correctly constructed ensemble (one pair, radius
one) whose random draws place both electrons at the origin is reachable at
construction itself, and evaluating the average energy on it performs a
division by zero in the local-energy terms. -/
theorem C8_counterexample :
    mkQmc 1 1 (1 / 2) 2 streamHalf 1 0 =
      some (⟨1, [⟨⟨⟨0, 0, 0⟩, 0⟩, ⟨⟨0, 0, 0⟩, 0⟩⟩], 1, 1 / 2, 2⟩, 6) ∧
    avg_energyChecked ⟨1, [⟨⟨⟨0, 0, 0⟩, 0⟩, ⟨⟨0, 0, 0⟩, 0⟩⟩], 1, 1 / 2, 2⟩ = none := by
  constructor
  · simp [mkQmc, generate_pairs, rv_one_half]
  · simp [avg_energyChecked, energies_checked, Pair.energyChecked, fdiv]

/-- C8 amended: on any ensemble with a positive stored pair count all of
whose pairs have nonzero cached norms and nonzero inter-electron distance,
the average energy evaluates with no division by zero, agreeing with the
total real-valued avg_energy. -/
theorem C8_total_when_nondegenerate (st : Qmc) (hn : 0 < st.num_pairs)
    (hp : ∀ p ∈ st.pairs,
      p.e1.norm ≠ 0 ∧ p.e2.norm ≠ 0 ∧ get_dist p.e1.r p.e2.r ≠ 0) :
    avg_energyChecked st = some (avg_energy st) := by
  rw [avg_energyChecked, energies_checked_of_nonzero st.charge st.pairs hp]
  have hne : (st.num_pairs : ℝ) ≠ 0 := Int.cast_ne_zero.mpr (ne_of_gt hn)
  simp [fdiv, hne, avg_energy, foldl_energy]

/-- C8 witness: the no-division-by-zero statement instantiated on a
concrete nondegenerate one-pair ensemble. -/
theorem C8_total_when_nondegenerate_witness :
    0 < stOrtho.num_pairs ∧
    (∀ p ∈ stOrtho.pairs,
      p.e1.norm ≠ 0 ∧ p.e2.norm ≠ 0 ∧ get_dist p.e1.r p.e2.r ≠ 0) ∧
    avg_energyChecked stOrtho = some (avg_energy stOrtho) := by
  have hp : ∀ p ∈ stOrtho.pairs,
      p.e1.norm ≠ 0 ∧ p.e2.norm ≠ 0 ∧ get_dist p.e1.r p.e2.r ≠ 0 := by
    intro p hmem
    simp [stOrtho] at hmem
    subst hmem
    refine ⟨by norm_num, by norm_num, ?_⟩
    rw [get_dist]
    norm_num [Real.sqrt_ne_zero']
  exact ⟨by simp [stOrtho], hp,
    C8_total_when_nondegenerate stOrtho (by simp [stOrtho]) hp⟩

/-- C10: the ball constraint is not preserved by update. On a one-pair
ensemble of radius 1 whose electrons lie inside the ball, a concrete run
of accepted Metropolis draws moves the first electron to distance 2 from
the origin, strictly beyond the radius; and set_charge never touches the
pair positions, so it cannot re-establish the bound. -/
theorem C10_ball_not_invariant :
    disp ⟨1, 0, 0⟩ ≤ stBall.radius ∧ disp ⟨0, 0, 0⟩ ≤ stBall.radius ∧
    update stBall streamBall 0 =
      (⟨1, [⟨⟨⟨2, 0, 0⟩, 2⟩, ⟨⟨0, 0, 0⟩, 0⟩⟩], 1, 1, 0⟩, 7) ∧
    stBall.radius < disp ⟨2, 0, 0⟩ ∧ disp ⟨2, 0, 0⟩ = 2 ∧
    (∀ (q : Qmc) (c : ℝ), (set_charge q c).pairs = q.pairs) := by
  refine ⟨?_, ?_, ?_, ?_, ?_, fun q c => rfl⟩
  · rw [disp]; norm_num [Real.sqrt_one, stBall]
  · rw [disp]; norm_num [Real.sqrt_zero, stBall]
  · simp [update, update_pairs, update_pair, stBall, pBall, streamBall, unif,
      move_accept, Real.exp_zero, sqrt_four, Real.sqrt_zero]
    norm_num [sqrt_four]
  · rw [disp]; norm_num [sqrt_four, stBall]
  · rw [disp]; norm_num [sqrt_four]

end

end QmcSim
